import Mathlib

/-!
# Verification of `unordered-n-tuple`

A shallow embedding of the `UnorderedNTuple<T, N>` Rust crate: a fixed-arity
unordered tuple with multiset equality (greedy bipartite matching), an
order-independent hash (sort, then feed the sorted slice to the hasher), and
a serde sequence codec (serialize as a length-`N` sequence; deserialize via a
visitor that checks the size hint and then pulls `N` elements).

The element array `[T; N]` is embedded as a list together with a proof that
its length is `N`.  Machine-level details (the concrete hasher, the byte-level
wire format) are abstracted by explicit function parameters, exactly as the
Rust code is generic over `Hasher`, `Serializer` and `Deserializer`.
-/

/-- Embedding of `pub struct UnorderedNTuple<T, const N: usize>(pub [T; N])`:
the payload is a length-`N` sequence of elements in storage order. -/
structure UnorderedNTuple (T : Type) (N : Nat) where
  elems : List T
  len_eq : elems.length = N

/-- `UnorderedPair<T>` is the alias `UnorderedNTuple<T, 2>`. -/
abbrev UnorderedPair (T : Type) := UnorderedNTuple T 2

/-- Embedding of `impl From<(T, T)> for UnorderedPair<T>`:
`Self([tuple.0, tuple.1])`. -/
def UnorderedPair.fromTuple {T : Type} (tuple : T × T) : UnorderedPair T :=
  ⟨[tuple.1, tuple.2], rfl⟩

/-- Embedding of `impl From<UnorderedPair<T>> for (T, T)`:
`let [first, second] = pair.0; (first, second)`.  The two slots are read off
in storage order; the length invariant makes the indexing total. -/
def UnorderedPair.toTuple {T : Type} (pair : UnorderedPair T) : T × T :=
  (pair.elems.get ⟨0, by simp [pair.len_eq]⟩, pair.elems.get ⟨1, by simp [pair.len_eq]⟩)

/-- One step of the inner loop of `PartialEq::eq`: scan the right-hand slots
(each an element paired with its `used_indices` mark) in storage order, skip
slots already marked used, and claim the first unmarked slot whose element
equals `x` (returning the updated slot list).  `none` means the `found` flag
stays false: no unmarked equal slot exists. -/
def claimFirst {T : Type} [DecidableEq T] (x : T) : List (T × Bool) → Option (List (T × Bool))
  | [] => none
  | (y, u) :: rest =>
    if u then (claimFirst x rest).map ((y, u) :: ·)
    else if x = y then some ((y, true) :: rest)
    else (claimFirst x rest).map ((y, u) :: ·)

/-- The outer loop of `PartialEq::eq`: for each left-hand element in storage
order, try to claim a right-hand slot; return `false` as soon as one fails. -/
def eqLoop {T : Type} [DecidableEq T] : List T → List (T × Bool) → Bool
  | [], _ => true
  | x :: xs, slots =>
    match claimFirst x slots with
    | none => false
    | some slots' => eqLoop xs slots'

/-- Embedding of `PartialEq::eq for UnorderedNTuple` on raw element lists:
all `used_indices` start out `false`. -/
def listEq {T : Type} [DecidableEq T] (xs ys : List T) : Bool :=
  eqLoop xs (ys.map (fun y => (y, false)))

/-- Embedding of `PartialEq::eq for UnorderedNTuple`. -/
def UnorderedNTuple.eq {T : Type} {N : Nat} [DecidableEq T]
    (a b : UnorderedNTuple T N) : Bool :=
  listEq a.elems b.elems

/-- The canonical element sequence fed to the hasher by `Hash::hash`:
`let mut sorted = self.0.clone(); sorted.sort();`.  Rust's `sort` orders by
`Ord`; we embed it as sorting by `≤` of a linear order. -/
def UnorderedNTuple.sortedElems {T : Type} {N : Nat} [LinearOrder T]
    (t : UnorderedNTuple T N) : List T :=
  t.elems.insertionSort (fun a b => a ≤ b)

/-- Embedding of `Hash::hash for UnorderedNTuple`: the hasher state update is
abstracted as a function of the element sequence it is fed
(`Hash::hash_slice(&sorted, state)` feeds the sorted clone, order-sensitively).
The result is whatever the hasher computes from the sorted sequence. -/
def UnorderedNTuple.hash {T : Type} {N : Nat} [LinearOrder T] {H : Type}
    (hasher : List T → H) (t : UnorderedNTuple T N) : H :=
  hasher t.sortedElems

/-- The wire form produced/consumed by the serde codec: a sequence with a
declared length (serde's `size_hint`, `Some(N)` when the format knows it) and
a payload of encoded items. -/
structure SerializedSeq (B : Type) where
  hint : Option Nat
  items : List B

/-- Embedding of `Serialize::serialize for UnorderedNTuple`:
`serializer.serialize_seq(Some(N))` starts a sequence declaring length `N`,
then every element is serialized with the element type's own encoder `enc`,
in storage order, and the sequence is ended with nothing further added. -/
def UnorderedNTuple.serialize {T B : Type} {N : Nat} (enc : T → B)
    (t : UnorderedNTuple T N) : SerializedSeq B :=
  ⟨some N, t.elems.map enc⟩

/-- The deserializer's view of a sequence (serde's `SeqAccess`): the size
hint, and the stream of answers successive `next_element` calls would give —
`Except.error e` when the underlying decoder fails with `e`, `Except.ok t`
for a decoded element; when the stream is exhausted `next_element` answers
`Ok(None)` (end of sequence). -/
structure SeqAccess (T : Type) where
  hint : Option Nat
  stream : List (Except String T)

/-- Result of `visit_seq`'s element-reading loop
(`for _ in 0..N { data.push(access.next_element()?.unwrap()) }`):
either all `n` elements were read, or an underlying decoder error was
propagated by `?`, or `next_element` answered `Ok(None)` and the `.unwrap()`
panicked. -/
inductive ReadResult (T : Type) : Nat → Type where
  | ok : (items : List T) → (h : items.length = n) → ReadResult T n
  | err : (e : String) → ReadResult T n
  | panicked : ReadResult T n

/-- The element-reading loop of `visit_seq`: pull `n` elements off the
stream, propagating the first underlying error unchanged via `?`, and
panicking (via `.unwrap()`) if the sequence ends early.  Also returns the
unconsumed remainder of the stream. -/
def readElems {T : Type} : (n : Nat) → List (Except String T) →
    ReadResult T n × List (Except String T)
  | 0, s => (.ok [] rfl, s)
  | _ + 1, [] => (.panicked, [])
  | _ + 1, .error e :: rest => (.err e, rest)
  | n + 1, .ok t :: rest =>
    match readElems n rest with
    | (.ok items h, rem) => (.ok (t :: items) (by simp [h]), rem)
    | (.err e, rem) => (.err e, rem)
    | (.panicked, rem) => (.panicked, rem)

/-- Outcome of `visit_seq`: a deserialized tuple, an error (either this
type's own `Error::custom("Wrong number of elements")` or an underlying
decoder error propagated unchanged), or a panic. -/
inductive VisitOutcome (T : Type) (N : Nat) where
  | ok : UnorderedNTuple T N → VisitOutcome T N
  | errWrongNumber : VisitOutcome T N
  | errUnderlying : String → VisitOutcome T N
  | panicked : VisitOutcome T N

/-- Embedding of `UnorderedNTupleVisitor::visit_seq`: first compare
`access.size_hint()` with `Some(N)` and fail with the custom
"Wrong number of elements" error if they differ (without touching the
stream); otherwise read exactly `N` elements into the fixed-arity storage
(the `try_into` cannot fail because exactly `N` were pushed).  The second
component is the unconsumed remainder of the stream. -/
def visit_seq {T : Type} (N : Nat) (access : SeqAccess T) :
    VisitOutcome T N × List (Except String T) :=
  if access.hint = some N then
    match readElems N access.stream with
    | (.ok items h, rem) => (.ok ⟨items, h⟩, rem)
    | (.err e, rem) => (.errUnderlying e, rem)
    | (.panicked, rem) => (.panicked, rem)
  else (.errWrongNumber, access.stream)

/-- Embedding of `Deserialize::deserialize for UnorderedNTuple` run against a
wire sequence: the deserializer drives the visitor with the wire's declared
length as the size hint and the element type's own decoder `dec` applied to
each payload item as the `next_element` answers. -/
def UnorderedNTuple.deserialize {T B : Type} (N : Nat) (dec : B → Except String T)
    (w : SerializedSeq B) : VisitOutcome T N :=
  (visit_seq N ⟨w.hint, w.items.map dec⟩).1

/-- Proof device: the elements of the still-unmarked slots, in storage
order.  `claimFirst` acts on this projection as "erase the first equal
element". -/
def avail {T : Type} (slots : List (T × Bool)) : List T :=
  (slots.filter (fun p => !p.2)).map Prod.fst

/-- Proof device: the greedy matching loop rephrased on the unmarked
projection — claim a match by erasing the first equal element. -/
def eqErase {T : Type} [DecidableEq T] : List T → List T → Bool
  | [], _ => true
  | x :: xs, ys => if x ∈ ys then eqErase xs (ys.erase x) else false

theorem avail_nil {T : Type} : avail ([] : List (T × Bool)) = [] := rfl

theorem avail_cons_true {T : Type} (y : T) (rest : List (T × Bool)) :
    avail ((y, true) :: rest) = avail rest := by
  simp [avail]

theorem avail_cons_false {T : Type} (y : T) (rest : List (T × Bool)) :
    avail ((y, false) :: rest) = y :: avail rest := by
  simp [avail]

theorem claimFirst_eq_none {T : Type} [DecidableEq T] (x : T) :
    ∀ slots : List (T × Bool), claimFirst x slots = none ↔ x ∉ avail slots := by
  intro slots
  induction slots with
  | nil => simp [claimFirst, avail_nil]
  | cons p rest ih =>
    obtain ⟨y, u⟩ := p
    cases u with
    | true => simpa [claimFirst, avail_cons_true] using ih
    | false =>
      by_cases hxy : x = y
      · simp [claimFirst, hxy, avail_cons_false]
      · simpa [claimFirst, hxy, avail_cons_false] using ih

theorem claimFirst_eq_some {T : Type} [DecidableEq T] (x : T) :
    ∀ (slots slots' : List (T × Bool)), claimFirst x slots = some slots' →
      x ∈ avail slots ∧ avail slots' = (avail slots).erase x := by
  intro slots
  induction slots with
  | nil => intro slots' h; simp [claimFirst] at h
  | cons p rest ih =>
    obtain ⟨y, u⟩ := p
    intro slots' h
    cases u with
    | true =>
      simp only [claimFirst, if_true, Option.map_eq_some'] at h
      obtain ⟨rest', hrest', hslots'⟩ := h
      obtain ⟨hmem, heq⟩ := ih rest' hrest'
      subst hslots'
      simp [avail_cons_true, hmem, heq]
    | false =>
      by_cases hxy : x = y
      · simp only [claimFirst, if_false, hxy, if_true, Option.some_inj,
          Bool.false_eq_true] at h
        subst h
        subst hxy
        simp [avail_cons_true, avail_cons_false, List.erase_cons_head]
      · simp only [claimFirst, hxy, if_false, Option.map_eq_some',
          Bool.false_eq_true] at h
        obtain ⟨rest', hrest', hslots'⟩ := h
        obtain ⟨hmem, heq⟩ := ih rest' hrest'
        subst hslots'
        constructor
        · simp [avail_cons_false, hmem]
        · have hne : y ≠ x := fun hyx => hxy hyx.symm
          simp [avail_cons_false, List.erase_cons_tail, hne, heq,
            List.erase_cons]

theorem eqLoop_eq_eqErase {T : Type} [DecidableEq T] :
    ∀ (xs : List T) (slots : List (T × Bool)),
      eqLoop xs slots = eqErase xs (avail slots) := by
  intro xs
  induction xs with
  | nil => intro slots; rfl
  | cons x xs ih =>
    intro slots
    rcases hcf : claimFirst x slots with _ | slots'
    · have hx : x ∉ avail slots := (claimFirst_eq_none x slots).mp hcf
      simp [eqLoop, hcf, eqErase, hx]
    · obtain ⟨hmem, heq⟩ := claimFirst_eq_some x slots slots' hcf
      simp [eqLoop, hcf, eqErase, hmem, ih slots', heq]

theorem avail_map_false {T : Type} (ys : List T) :
    avail (ys.map (fun y => (y, false))) = ys := by
  induction ys with
  | nil => rfl
  | cons y ys ih => simp [avail_cons_false, ih]

theorem eqErase_iff_perm {T : Type} [DecidableEq T] :
    ∀ (xs ys : List T), xs.length = ys.length →
      (eqErase xs ys = true ↔ xs.Perm ys) := by
  intro xs
  induction xs with
  | nil =>
    intro ys hlen
    have : ys = [] := List.length_eq_zero.mp hlen.symm
    subst this
    simp [eqErase]
  | cons x xs ih =>
    intro ys hlen
    by_cases hx : x ∈ ys
    · have hperm : ys.Perm (x :: ys.erase x) := List.perm_cons_erase hx
      have hlen' : xs.length = (ys.erase x).length := by
        have h1 := hperm.length_eq
        have h2 : xs.length + 1 = ys.length := by simpa using hlen
        simp at h1
        omega
      rw [eqErase, if_pos hx, ih (ys.erase x) hlen']
      constructor
      · intro h
        exact ((List.perm_cons x).mpr h).trans hperm.symm
      · intro h
        exact (List.perm_cons x).mp (h.trans hperm)
    · have : ¬ (x :: xs).Perm ys := fun h => hx (h.mem_iff.mp (by simp))
      simp [eqErase, hx, this]

theorem listEq_iff_perm {T : Type} [DecidableEq T] (xs ys : List T)
    (hlen : xs.length = ys.length) : (listEq xs ys = true ↔ xs.Perm ys) := by
  rw [listEq, eqLoop_eq_eqErase, avail_map_false]
  exact eqErase_iff_perm xs ys hlen

theorem UnorderedNTuple.eq_iff_perm {T : Type} {N : Nat} [DecidableEq T]
    (a b : UnorderedNTuple T N) : (a.eq b = true ↔ a.elems.Perm b.elems) :=
  listEq_iff_perm a.elems b.elems (a.len_eq.trans b.len_eq.symm)

theorem UnorderedNTuple.eq_refl {T : Type} {N : Nat} [DecidableEq T]
    (t : UnorderedNTuple T N) : t.eq t = true :=
  (t.eq_iff_perm t).mpr (List.Perm.refl _)

/-- C1: `eq(a, b)` returns `true` iff the elements of `a` and the elements of
`b` are equal as multisets (same elements, same multiplicities, regardless of
storage position); permutations compare equal and differing multiplicities
compare unequal. -/
theorem C1_eq_iff_multiset_eq {T : Type} {N : Nat} [DecidableEq T]
    (a b : UnorderedNTuple T N) :
    a.eq b = true ↔ (a.elems : Multiset T) = (b.elems : Multiset T) := by
  rw [Multiset.coe_eq_coe]
  exact a.eq_iff_perm b

/-- C6: tuple equality is reflexive, symmetric and transitive, despite the
greedy left-to-right matching used to compute it. -/
theorem C6_eq_is_equivalence {T : Type} {N : Nat} [DecidableEq T]
    (a b c : UnorderedNTuple T N) :
    a.eq a = true ∧ a.eq b = b.eq a ∧
      (a.eq b = true → b.eq c = true → a.eq c = true) := by
  refine ⟨(a.eq_iff_perm a).mpr (List.Perm.refl _), ?_, ?_⟩
  · by_cases hab : a.elems.Perm b.elems
    · rw [(a.eq_iff_perm b).mpr hab, (b.eq_iff_perm a).mpr hab.symm]
    · have h1 : a.eq b = false := by
        cases h : a.eq b with
        | true => exact absurd ((a.eq_iff_perm b).mp h) hab
        | false => rfl
      have h2 : b.eq a = false := by
        cases h : b.eq a with
        | true => exact absurd ((b.eq_iff_perm a).mp h).symm hab
        | false => rfl
      rw [h1, h2]
  · intro hab hbc
    exact (a.eq_iff_perm c).mpr
      (((a.eq_iff_perm b).mp hab).trans ((b.eq_iff_perm c).mp hbc))

/-- Witness for C6 at concrete tuples (transitivity instantiated at
`[1,2,2]`, `[2,1,2]`, `[2,2,1]` with its hypotheses discharged). -/
theorem C6_eq_is_equivalence_witness :
    (⟨[1, 2, 2], rfl⟩ : UnorderedNTuple Nat 3).eq ⟨[2, 1, 2], rfl⟩ = true ∧
      (⟨[2, 1, 2], rfl⟩ : UnorderedNTuple Nat 3).eq ⟨[2, 2, 1], rfl⟩ = true ∧
      (⟨[1, 2, 2], rfl⟩ : UnorderedNTuple Nat 3).eq ⟨[2, 2, 1], rfl⟩ = true :=
  ⟨by decide, by decide,
    (C6_eq_is_equivalence ⟨[1, 2, 2], rfl⟩ ⟨[2, 1, 2], rfl⟩ ⟨[2, 2, 1], rfl⟩).2.2
      (by decide) (by decide)⟩

/-- C2: equal tuples (under multiset equality) produce identical hash
results for the same hasher, because both are hashed as their sorted element
sequence. -/
theorem C2_equal_implies_equal_hash {T : Type} {N : Nat} [LinearOrder T]
    {H : Type} (hasher : List T → H) (a b : UnorderedNTuple T N)
    (h : a.eq b = true) : a.hash hasher = b.hash hasher := by
  have hperm : a.elems.Perm b.elems := (a.eq_iff_perm b).mp h
  have hsorted : a.sortedElems = b.sortedElems :=
    List.eq_of_perm_of_sorted
      (((List.perm_insertionSort _ a.elems).trans hperm).trans
        (List.perm_insertionSort _ b.elems).symm)
      (List.sorted_insertionSort _ a.elems)
      (List.sorted_insertionSort _ b.elems)
  simp [UnorderedNTuple.hash, hsorted]

/-- Witness for C2: the permuted pairs `[3,1]` and `[1,3]` compare equal and
hash identically under a concrete polynomial hasher. -/
theorem C2_equal_implies_equal_hash_witness :
    (⟨[3, 1], rfl⟩ : UnorderedNTuple Nat 2).eq ⟨[1, 3], rfl⟩ = true ∧
      UnorderedNTuple.hash (fun l => l.foldl (fun h x => h * 31 + x) 7)
          (⟨[3, 1], rfl⟩ : UnorderedNTuple Nat 2) =
        UnorderedNTuple.hash (fun l => l.foldl (fun h x => h * 31 + x) 7)
          (⟨[1, 3], rfl⟩ : UnorderedNTuple Nat 2) :=
  ⟨by decide,
    C2_equal_implies_equal_hash (fun l => l.foldl (fun h x => h * 31 + x) 7)
      ⟨[3, 1], rfl⟩ ⟨[1, 3], rfl⟩ (by decide)⟩

/-- C8: converting an ordered pair `(a, b)` into an `UnorderedPair` and back
yields a pair whose components are exactly the multiset `{a, b}` (either
`(a, b)` or `(b, a)`), and the result compares equal to the original under
the tuple's multiset equality. -/
theorem C8_pair_roundtrip_multiset {T : Type} [DecidableEq T] (a b : T) :
    (UnorderedPair.toTuple (UnorderedPair.fromTuple (a, b)) = (a, b) ∨
      UnorderedPair.toTuple (UnorderedPair.fromTuple (a, b)) = (b, a)) ∧
      (UnorderedPair.fromTuple
          (UnorderedPair.toTuple (UnorderedPair.fromTuple (a, b)))).eq
        (UnorderedPair.fromTuple (a, b)) = true :=
  ⟨Or.inl rfl, UnorderedNTuple.eq_refl _⟩

/-- C10: the pair round trip is exactly the identity: `From<(T, T)>` stores
`[a, b]` in construction order and the conversion back returns precisely
`(a, b)`. -/
theorem C10_pair_roundtrip_identity {T : Type} (a b : T) :
    (UnorderedPair.fromTuple (a, b)).elems = [a, b] ∧
      UnorderedPair.toTuple (UnorderedPair.fromTuple (a, b)) = (a, b) :=
  ⟨rfl, rfl⟩

theorem readElems_all_ok {T : Type} :
    ∀ (l : List T) (rest : List (Except String T)),
      readElems l.length (l.map Except.ok ++ rest) = (ReadResult.ok l rfl, rest) := by
  intro l
  induction l with
  | nil => intro rest; rfl
  | cons x xs ih =>
    intro rest
    show readElems (xs.length + 1) (Except.ok x :: (xs.map Except.ok ++ rest)) = _
    simp [readElems, ih rest]

/-- C3: serializing a tuple and then deserializing the produced sequence
succeeds and yields a tuple equal to the original under multiset equality
(whenever the element codec round-trips). -/
theorem C3_serde_roundtrip {T B : Type} {N : Nat} [DecidableEq T]
    (enc : T → B) (dec : B → Except String T)
    (hdec : ∀ x, dec (enc x) = Except.ok x) (t : UnorderedNTuple T N) :
    ∃ u : UnorderedNTuple T N,
      UnorderedNTuple.deserialize N dec (t.serialize enc) = VisitOutcome.ok u ∧
        u.eq t = true := by
  refine ⟨t, ?_, UnorderedNTuple.eq_refl t⟩
  obtain ⟨l, hl⟩ := t
  subst hl
  have hre : readElems l.length (List.map Except.ok l) = (ReadResult.ok l rfl, []) := by
    have h := readElems_all_ok l []
    rwa [List.append_nil] at h
  have hmap : (l.map enc).map dec = l.map Except.ok := by
    rw [List.map_map]
    exact List.map_congr_left fun a _ => hdec a
  simp [UnorderedNTuple.deserialize, UnorderedNTuple.serialize, visit_seq,
    hmap, hre]

/-- Witness for C3: the pair `[1, 2]` round-trips through the identity
element codec. -/
theorem C3_serde_roundtrip_witness :
    (∀ x : Nat, (Except.ok (id x) : Except String Nat) = Except.ok x) ∧
      ∃ u : UnorderedNTuple Nat 2,
        UnorderedNTuple.deserialize 2 Except.ok
            ((⟨[1, 2], rfl⟩ : UnorderedNTuple Nat 2).serialize id) =
          VisitOutcome.ok u ∧ u.eq ⟨[1, 2], rfl⟩ = true :=
  ⟨fun _ => rfl, C3_serde_roundtrip id Except.ok (fun _ => rfl) ⟨[1, 2], rfl⟩⟩

/-- C4: when the declared length (size hint) differs from `N`,
deserialization fails with the "Wrong number of elements" error and consumes
nothing: the stream is returned untouched. -/
theorem C4_length_mismatch_fails_before_consuming {T : Type} (N : Nat)
    (access : SeqAccess T) (h : access.hint ≠ some N) :
    visit_seq N access = (VisitOutcome.errWrongNumber, access.stream) := by
  simp [visit_seq, h]

/-- Witness for C4: a sequence declaring 3 elements against arity 2 is
rejected with the stream unconsumed. -/
theorem C4_length_mismatch_fails_before_consuming_witness :
    (some 3 ≠ some 2) ∧
      visit_seq 2 (⟨some 3, [Except.ok (5 : Nat)]⟩ : SeqAccess Nat) =
        (VisitOutcome.errWrongNumber, [Except.ok 5]) :=
  ⟨by decide,
    C4_length_mismatch_fails_before_consuming 2 ⟨some 3, [Except.ok 5]⟩ (by decide)⟩

/-- C9: whenever the size hint is anything other than `some N` — including
`none`, as reported by formats that cannot know the length in advance —
deserialization fails with the "Wrong number of elements" error even though
the stream holds exactly `N` well-formed elements. -/
theorem C9_hint_mismatch_rejects_valid_sequence {T : Type} (N : Nat)
    (hint : Option Nat) (h : hint ≠ some N) (l : List T) (_hlen : l.length = N) :
    (visit_seq N (⟨hint, l.map Except.ok⟩ : SeqAccess T)).1 =
      VisitOutcome.errWrongNumber := by
  simp [visit_seq, h]

/-- Witness for C9: a well-formed two-element sequence with no size hint is
rejected for arity 2. -/
theorem C9_hint_mismatch_rejects_valid_sequence_witness :
    ((none : Option Nat) ≠ some 2) ∧ ([4, 7] : List Nat).length = 2 ∧
      (visit_seq 2 (⟨none, ([4, 7] : List Nat).map Except.ok⟩ : SeqAccess Nat)).1 =
        VisitOutcome.errWrongNumber :=
  ⟨by decide, by decide,
    C9_hint_mismatch_rejects_valid_sequence 2 none (by decide) [4, 7] (by decide)⟩

/-- C5: evaluating `visit_seq` at a sequence that declares 2 elements but
supplies only one before ending shows that the `.unwrap()` of the
`Ok(None)` answer panics instead of surfacing an error result. -/
theorem C5_short_sequence_panics :
    (visit_seq 2 (⟨some 2, [Except.ok (7 : Nat)]⟩ : SeqAccess Nat)).1 =
      VisitOutcome.panicked := rfl

/-- C7: the serialized form is exactly a sequence declaring length `N` whose
payload has length `N` and whose `i`-th entry is the element encoder applied
to the `i`-th element in storage order — no extra tagging or metadata. -/
theorem C7_serialize_is_plain_sequence {T B : Type} {N : Nat} (enc : T → B)
    (t : UnorderedNTuple T N) :
    (t.serialize enc).hint = some N ∧ (t.serialize enc).items.length = N ∧
      ∀ i : Nat, (t.serialize enc).items[i]? = (t.elems[i]?).map enc := by
  refine ⟨rfl, ?_, fun i => ?_⟩
  · simp [UnorderedNTuple.serialize, t.len_eq]
  · simp [UnorderedNTuple.serialize]
